import Mathlib

set_option maxRecDepth 8000

/-!
Shallow embedding of the Identifier Resolution & Cache Subsystem of the
s3-lens-unity-catalog-viewer extension (src/background.js and the type
tie-break of src/content.js), together with proofs of the specified
properties.

JavaScript objects used as string-keyed maps are embedded as association
lists (`lookupA` / `insertA`, where `insertA` overwrites in place like a
JS property assignment).  Timestamps are `Int` milliseconds, matching JS
number arithmetic on `Date.now()` values for the comparisons the code
performs.  The network is an explicit environment: each SQL statement
text is mapped to the HTTP result of the submit call plus the stream of
poll results, and `executeSql` consumes that stream; `none` models a
poll stream that never reaches a terminal state (the JS loop would spin
forever).  Resolver runs additionally return the trace of SQL statement
texts passed to the executor, so "no query was issued" is `trace = []`.
-/

namespace S3Lens

/-- Association-list lookup: first binding for the key, like reading a JS
object property. -/
def lookupA {α : Type} : List (String × α) → String → Option α
  | [], _ => none
  | (k, v) :: rest, key => if k = key then some v else lookupA rest key

/-- Association-list insert that overwrites an existing binding in place,
like a JS object property assignment `obj[key] = v`. -/
def insertA {α : Type} : List (String × α) → String → α → List (String × α)
  | [], key, v => [(key, v)]
  | (k, w) :: rest, key, v =>
    if k = key then (key, v) :: rest else (k, w) :: insertA rest key v

theorem lookupA_insertA {α : Type} (m : List (String × α)) (k : String) (v : α)
    (key : String) :
    lookupA (insertA m k v) key = if k = key then some v else lookupA m key := by
  induction m with
  | nil => simp [insertA, lookupA]
  | cons p rest ih =>
    obtain ⟨k', w⟩ := p
    by_cases hk : k' = k
    · subst hk
      by_cases hkey : k' = key
      · subst hkey; simp [insertA, lookupA]
      · simp [insertA, lookupA, hkey]
    · by_cases hkey : k' = key
      · subst hkey
        have hne : k ≠ k' := fun h => hk h.symm
        simp [insertA, lookupA, hk, hne]
      · simp [insertA, lookupA, hk, hkey, ih]

-- ------------------------------------------------------------------
-- UUID validation (the regex /^[0-9a-f]{8}-[0-9a-f]{4}-[0-9a-f]{4}-
-- [0-9a-f]{4}-[0-9a-f]{12}$/ shared by background.js and content.js)
-- ------------------------------------------------------------------

/-- `[0-9a-f]` character class of the UUID regex. -/
def isHexLower (c : Char) : Bool :=
  (decide ('0' ≤ c) && decide (c ≤ '9')) || (decide ('a' ≤ c) && decide (c ≤ 'f'))

/-- Consume exactly `n` lowercase-hex characters. -/
def hexRun : Nat → List Char → Option (List Char)
  | 0, cs => some cs
  | _ + 1, [] => none
  | n + 1, c :: cs => if isHexLower c then hexRun n cs else none

/-- Consume one dash. -/
def expectDash : List Char → Option (List Char)
  | '-' :: cs => some cs
  | _ => none

/-- The anchored UUID regex `UUID_RE` of background.js line 120 (the same
pattern as `UUID_PATTERN` in content.js): 8-4-4-4-12 lowercase hex with
dashes, matching the whole string. -/
def uuidRe (s : String) : Bool :=
  match (((((((((hexRun 8 s.toList).bind expectDash).bind
      (hexRun 4)).bind expectDash).bind
      (hexRun 4)).bind expectDash).bind
      (hexRun 4)).bind expectDash).bind
      (hexRun 12)) with
  | some [] => true
  | _ => false

/-- Model of JS `String.prototype.toLowerCase()` as the per-character ASCII
case map (the identifier tokens only exercise ASCII).  Defined structurally
over the character list so that it evaluates by kernel reduction. -/
def jsToLower (s : String) : String := ⟨s.data.map Char.toLower⟩

-- ------------------------------------------------------------------
-- Remote Query Executor: executeSql (background.js lines 46-98)
-- ------------------------------------------------------------------

/-- The `status` object of a SQL Statement API response:
`{ state, error?: { message? } }`.  `errorMessage` is `status.error?.message`
collapsed to a single optional string. -/
structure SqlStatus where
  state : String
  errorMessage : Option String
deriving DecidableEq, Repr

/-- The JSON body of a submit or poll response:
`{ status?, statement_id, result?: { data_array } }`. -/
structure SqlResponse where
  status : Option SqlStatus
  statementId : String
  dataArray : Option (List (List String))
deriving DecidableEq, Repr

/-- One HTTP exchange: either an ok response with a JSON body, or a non-2xx
response with its status code and text. -/
inductive HttpResult where
  | ok : SqlResponse → HttpResult
  | httpError : Nat → String → HttpResult
deriving DecidableEq, Repr

/-- Model of `JSON.stringify(data.status)`, used only as the fallback error
message when the FAILED status carries no `error.message`. -/
def stringifyStatus (st : SqlStatus) : String :=
  "\x7b\"state\":\"" ++ st.state ++ "\"\x7d"

/-- `data.status.error?.message || JSON.stringify(data.status)`
(background.js line 90). -/
def failedMessage (st : SqlStatus) : String :=
  match st.errorMessage with
  | some m => m
  | none => stringifyStatus st

/-- The guard of the poll loop (background.js line 76):
`data.status && (data.status.state === "PENDING" || data.status.state === "RUNNING")`. -/
def isActive (d : SqlResponse) : Bool :=
  match d.status with
  | some st => st.state == "PENDING" || st.state == "RUNNING"
  | none => false

/-- What executeSql does with the final (non-active) response
(background.js lines 89-97): throw on FAILED, otherwise return the body. -/
def finishStatement (d : SqlResponse) : Except String SqlResponse :=
  match d.status with
  | some st =>
    if st.state = "FAILED" then Except.error ("SQL failed: " ++ failedMessage st)
    else Except.ok d
  | none => Except.ok d

/-- The poll loop of executeSql (background.js lines 76-87) run against an
explicit stream of poll results.  `none` means the stream was exhausted
while the statement was still PENDING/RUNNING, i.e. the JS loop would keep
polling forever. -/
def pollLoop : SqlResponse → List HttpResult → Option (Except String SqlResponse)
  | data, [] =>
    if isActive data then none else some (finishStatement data)
  | data, p :: rest =>
    if isActive data then
      match p with
      | HttpResult.httpError code text =>
        some (Except.error ("SQL poll failed (" ++ toString code ++ "): " ++ text))
      | HttpResult.ok d => pollLoop d rest
    else some (finishStatement data)

/-- executeSql (background.js lines 46-98) over an explicit submit result and
poll-result stream.  The HTTP layer (URL construction, headers, request body)
is outside the embedding; the submit/poll state machine is modelled exactly. -/
def executeSql (submit : HttpResult) (polls : List HttpResult) :
    Option (Except String SqlResponse) :=
  match submit with
  | HttpResult.httpError code text =>
    some (Except.error ("SQL submit failed (" ++ toString code ++ "): " ++ text))
  | HttpResult.ok data => pollLoop data polls

/-- A network environment: for each SQL statement text, the submit result and
the stream of poll results the endpoint would answer with. -/
def Net : Type := String → HttpResult × List HttpResult

/-- One executor call against the environment. -/
def runSql (net : Net) (sql : String) : Option (Except String SqlResponse) :=
  executeSql (net sql).1 (net sql).2

-- ------------------------------------------------------------------
-- Typed Resolver: resolveUuids (background.js lines 113-216)
-- ------------------------------------------------------------------

/-- An element of the `typedUuids` input array: `{ uuid, type }` with type
"table" | "schema" | "catalog". -/
structure TypedUuid where
  uuid : String
  type : String
deriving DecidableEq, Repr

/-- A resolved entry `{ type, fullName }` as stored in `results` and in the
cache `data` field. -/
structure ResolvedName where
  type : String
  fullName : String
deriving DecidableEq, Repr

/-- JS `String.prototype.replace` with a string pattern replaces only the
first occurrence; this models `s.replace(pat, "")`. -/
def replaceFirst (s pat : String) : String :=
  match s.splitOn pat with
  | [] => s
  | [whole] => whole
  | piece :: rest => piece ++ String.intercalate pat rest

/-- The `conditions` string of the table-group query (background.js
lines 133-135): `'tables/<uuid>', 'tables/<uuid>', ...`. -/
def tableConditions (tableUuids : List TypedUuid) : String :=
  String.intercalate ", " (tableUuids.map (fun u => "'tables/" ++ u.uuid ++ "'"))

/-- The batched table-group SQL text (background.js lines 138-142),
including the template literal's exact whitespace. -/
def tableSql (conditions : String) : String :=
  "\n        SELECT table_catalog, table_schema, table_name, storage_sub_directory\n        FROM system.information_schema.tables\n        WHERE storage_sub_directory IN (" ++ conditions ++ ")\n      "

/-- The per-id schema SQL text (background.js lines 166-171). -/
def schemaSql (uuid : String) : String :=
  "\n          SELECT DISTINCT table_catalog, table_schema\n          FROM system.information_schema.tables\n          WHERE storage_path LIKE '%/schemas/" ++ uuid ++ "/%'\n          LIMIT 1\n        "

/-- The per-id catalog SQL text (background.js lines 192-197). -/
def catalogSql (uuid : String) : String :=
  "\n          SELECT DISTINCT table_catalog\n          FROM system.information_schema.tables\n          WHERE storage_path LIKE '%/catalogs/" ++ uuid ++ "/%'\n          LIMIT 1\n        "

/-- The row loop of the table group (background.js lines 146-154):
`const [catalog, schema, table, subDir] = row;` then
`results[subDir.replace("tables/","").toLowerCase()] = { type, fullName }`.
A row with fewer than 4 columns makes `subDir.replace` throw on `undefined`,
aborting the loop (the throw is caught by the group's try/catch), so rows
already processed stay in `results`; `${x}` renders a missing column as
"undefined". -/
def processTableRows : List (List String) → List (String × ResolvedName) →
    List (String × ResolvedName)
  | [], acc => acc
  | row :: rest, acc =>
    if row.length ≥ 4 then
      processTableRows rest
        (insertA acc (jsToLower (replaceFirst (row.getD 3 "") "tables/"))
          ⟨"table",
            row.getD 0 "undefined" ++ "." ++ row.getD 1 "undefined" ++ "." ++
              row.getD 2 "undefined"⟩)
    else acc

/-- The table group (background.js lines 132-160): one batched query for the
whole group; a failure is caught and logged, leaving the group unresolved.
Returns the accumulated results together with the trace of statements
issued, or `none` if the executor never reached a terminal state. -/
def tableGroup (net : Net) (tableUuids : List TypedUuid) :
    Option (List (String × ResolvedName) × List String) :=
  if tableUuids.length > 0 then
    match runSql net (tableSql (tableConditions tableUuids)) with
    | none => none
    | some (Except.error _) => some ([], [tableSql (tableConditions tableUuids)])
    | some (Except.ok r) =>
      match r.dataArray with
      | some rows =>
        some (processTableRows rows [], [tableSql (tableConditions tableUuids)])
      | none => some ([], [tableSql (tableConditions tableUuids)])
  else some ([], [])

/-- The schema group loop (background.js lines 163-186): one query per id,
each failure independent (caught and logged).  The guard
`result.result?.data_array?.length > 0` admits exactly a non-empty
`data_array`; `const [catalog, schema] = data_array[0]` renders missing
columns as "undefined" in the template literal. -/
def schemaLoop (net : Net) : List TypedUuid → List (String × ResolvedName) →
    List String → Option (List (String × ResolvedName) × List String)
  | [], acc, tr => some (acc, tr)
  | u :: rest, acc, tr =>
    match runSql net (schemaSql u.uuid) with
    | none => none
    | some (Except.error _) => schemaLoop net rest acc (tr ++ [schemaSql u.uuid])
    | some (Except.ok r) =>
      match r.dataArray with
      | some (row :: _) =>
        schemaLoop net rest
          (insertA acc u.uuid
            ⟨"schema", row.getD 0 "undefined" ++ "." ++ row.getD 1 "undefined"⟩)
          (tr ++ [schemaSql u.uuid])
      | _ => schemaLoop net rest acc (tr ++ [schemaSql u.uuid])

/-- The catalog group loop (background.js lines 189-212), same shape as the
schema loop with a 1-segment name. -/
def catalogLoop (net : Net) : List TypedUuid → List (String × ResolvedName) →
    List String → Option (List (String × ResolvedName) × List String)
  | [], acc, tr => some (acc, tr)
  | u :: rest, acc, tr =>
    match runSql net (catalogSql u.uuid) with
    | none => none
    | some (Except.error _) => catalogLoop net rest acc (tr ++ [catalogSql u.uuid])
    | some (Except.ok r) =>
      match r.dataArray with
      | some (row :: _) =>
        catalogLoop net rest
          (insertA acc u.uuid ⟨"catalog", row.getD 0 "undefined"⟩)
          (tr ++ [catalogSql u.uuid])
      | _ => catalogLoop net rest acc (tr ++ [catalogSql u.uuid])

/-- resolveUuids (background.js lines 113-216): validate tokens against
UUID_RE, group by declared type, run the batched table query then the
per-id schema and catalog queries, accumulating `results` across groups.
Returns the result map and the trace of SQL statements passed to
executeSql; `none` models a poll loop that never terminates. -/
def resolveUuids (net : Net) (typedUuids : List TypedUuid) :
    Option (List (String × ResolvedName) × List String) :=
  if typedUuids.length = 0 then some ([], [])
  else
    let validUuids := typedUuids.filter (fun u => uuidRe u.uuid)
    if validUuids.length = 0 then some ([], [])
    else
      match tableGroup net (validUuids.filter (fun u => u.type == "table")) with
      | none => none
      | some (res1, tr1) =>
        match schemaLoop net (validUuids.filter (fun u => u.type == "schema"))
            res1 tr1 with
        | none => none
        | some (res2, tr2) =>
          catalogLoop net (validUuids.filter (fun u => u.type == "catalog"))
            res2 tr2

-- ------------------------------------------------------------------
-- Resolution Cache (background.js lines 15, 220-249)
-- ------------------------------------------------------------------

/-- `CACHE_TTL_MS = 24 * 60 * 60 * 1000` (background.js line 15). -/
def CACHE_TTL_MS : Int := 24 * 60 * 60 * 1000

/-- A cache entry `{ data, cachedAt }` (epoch milliseconds). -/
structure CacheEntry where
  data : ResolvedName
  cachedAt : Int
deriving DecidableEq, Repr

/-- The loop of getCachedResults (background.js lines 226-234), with the
`cached` object and `uncached` array threaded as accumulators in source
order. -/
def splitLoop (uuidCache : List (String × CacheEntry)) (now : Int) :
    List TypedUuid → List (String × ResolvedName) → List TypedUuid →
    List (String × ResolvedName) × List TypedUuid
  | [], cached, uncached => (cached, uncached)
  | item :: rest, cached, uncached =>
    match lookupA uuidCache (jsToLower item.uuid) with
    | some entry =>
      if now - entry.cachedAt < CACHE_TTL_MS then
        splitLoop uuidCache now rest
          (insertA cached (jsToLower item.uuid) entry.data) uncached
      else splitLoop uuidCache now rest cached (uncached ++ [item])
    | none => splitLoop uuidCache now rest cached (uncached ++ [item])

/-- getCachedResults (background.js lines 220-238): partition the request
into cache hits (an object keyed by lower-cased uuid) and misses (the items
in input order). -/
def getCachedResults (uuidCache : List (String × CacheEntry)) (now : Int)
    (typedUuids : List TypedUuid) :
    List (String × ResolvedName) × List TypedUuid :=
  splitLoop uuidCache now typedUuids [] []

/-- The hit test of getCachedResults for a single key: the cached data if an
entry exists and `now - entry.cachedAt < CACHE_TTL_MS`, else nothing. -/
def hitEntry (uuidCache : List (String × CacheEntry)) (now : Int)
    (key : String) : Option ResolvedName :=
  match lookupA uuidCache key with
  | some entry =>
    if now - entry.cachedAt < CACHE_TTL_MS then some entry.data else none
  | none => none

/-- updateCache (background.js lines 240-249): write `{ data, cachedAt: now }`
for every key of `newResults` (overwriting in place), and return the new
cache map together with the stored `cacheUpdatedAt = now`. -/
def updateCache (uuidCache : List (String × CacheEntry)) (now : Int)
    (newResults : List (String × ResolvedName)) :
    List (String × CacheEntry) × Int :=
  (newResults.foldl (fun c p => insertA c p.1 ⟨p.2, now⟩) uuidCache, now)

-- ------------------------------------------------------------------
-- Coordinator: the "lookupUuids" case of handleMessage
-- (background.js lines 321-353)
-- ------------------------------------------------------------------

/-- The configuration fields the lookup path reads. -/
structure Config where
  workspaceUrl : String
  warehouseId : String
  patToken : String
deriving DecidableEq, Repr

/-- The persisted cache record: `uuidCache` plus `cacheUpdatedAt`. -/
structure StoreState where
  uuidCache : List (String × CacheEntry)
  cacheUpdatedAt : Option Int
deriving DecidableEq, Repr

/-- The observable outcome of one `lookupUuids` message: the response
(`matchMap` embeds the JS `matches` object, plus the optional `error`), the persisted store afterwards, and the
trace of SQL statements handed to the executor. -/
structure LookupOutcome where
  matchMap : List (String × ResolvedName)
  error : Option String
  store : StoreState
  trace : List String
deriving DecidableEq, Repr

/-- `(message.uuids || []).map(u => ({ uuid: u.uuid.toLowerCase(), type: u.type }))`
(background.js lines 323-326). -/
def normalizeUuids (uuids : List TypedUuid) : List TypedUuid :=
  uuids.map (fun u => ⟨jsToLower u.uuid, u.type⟩)

/-- `{ ...cached, ...freshResults }` (background.js line 350): fresh entries
override cached ones on key collision. -/
def unionObj (a b : List (String × ResolvedName)) : List (String × ResolvedName) :=
  b.foldl (fun m p => insertA m p.1 p.2) a

/-- The "lookupUuids" case of handleMessage (background.js lines 321-353):
normalize, short-circuit on empty input, split via the cache, refuse to
touch the network without a PAT token, otherwise resolve the misses, merge
into the cache and return `{ ...cached, ...freshResults }`.  `none` models
a resolution that never terminates. -/
def lookupUuids (net : Net) (config : Config) (st : StoreState) (now : Int)
    (uuids : List TypedUuid) : Option LookupOutcome :=
  let typedUuids := normalizeUuids uuids
  if typedUuids.length = 0 then some ⟨[], none, st, []⟩
  else
    let hm := getCachedResults st.uuidCache now typedUuids
    if hm.2.length > 0 then
      if config.patToken = "" then
        some ⟨hm.1, some "No PAT token configured", st, []⟩
      else
        match resolveUuids net hm.2 with
        | none => none
        | some (fresh, tr) =>
          some ⟨unionObj hm.1 fresh, none,
            ⟨(updateCache st.uuidCache now fresh).1,
              some (updateCache st.uuidCache now fresh).2⟩, tr⟩
    else some ⟨hm.1, none, st, []⟩

-- ------------------------------------------------------------------
-- Producer-side type tie-break (content.js lines 81-87, 150-155)
-- ------------------------------------------------------------------

/-- typePriority (content.js lines 150-155). -/
def typePriority (type : String) : Nat :=
  if type == "table" then 3
  else if type == "schema" then 2
  else if type == "catalog" then 1
  else 0

/-- One step of the typedUuids accumulation (content.js lines 81-87):
`const existing = typedUuids.get(uuid);
 if (!existing || typePriority(type) > typePriority(existing))
   typedUuids.set(uuid, type);`
(an empty-string `existing` is falsy in JS, hence the first disjunct). -/
def updateTypedUuid (m : List (String × String)) (uuid type : String) :
    List (String × String) :=
  match lookupA m uuid with
  | none => insertA m uuid type
  | some existing =>
    if existing = "" ∨ typePriority type > typePriority existing then
      insertA m uuid type
    else m

/-- The typedUuids map built by findUnityElements from all parsed
`(uuid, type)` occurrences in page order. -/
def buildTypedUuids (occs : List (String × String)) : List (String × String) :=
  occs.foldl (fun m p => updateTypedUuid m p.1 p.2) []

-- ------------------------------------------------------------------
-- Executor lemmas and C3
-- ------------------------------------------------------------------

theorem pollLoop_chain (fin : SqlResponse) :
    ∀ (ps : List SqlResponse) (d0 : SqlResponse),
      isActive d0 = true → (∀ d ∈ ps, isActive d = true) →
      pollLoop d0 (ps.map HttpResult.ok ++ [HttpResult.ok fin]) = pollLoop fin [] := by
  intro ps
  induction ps with
  | nil =>
    intro d0 h0 _
    simp [pollLoop, h0]
  | cons p rest ih =>
    intro d0 h0 hall
    simp only [List.map_cons, List.cons_append, pollLoop, h0, if_true]
    exact ih p (hall p (by simp)) (fun d hd => hall d (by simp [hd]))

/-- C3: while the state is PENDING or RUNNING the executor keeps consuming
poll responses; on a final SUCCEEDED response it returns that response (and
hence its row set, possibly empty) only, and on a final FAILED response it
fails with the message extracted from the job's error payload. -/
theorem executeSql_terminal_behavior (d0 fin : SqlResponse)
    (ps : List SqlResponse)
    (h0 : isActive d0 = true) (hps : ∀ d ∈ ps, isActive d = true)
    (hfin : isActive fin = false) :
    executeSql (HttpResult.ok d0) (ps.map HttpResult.ok ++ [HttpResult.ok fin]) =
      some (finishStatement fin) ∧
    (∀ st, fin.status = some st → st.state = "SUCCEEDED" →
      finishStatement fin = Except.ok fin) ∧
    (∀ st m, fin.status = some st → st.state = "FAILED" →
      st.errorMessage = some m →
      finishStatement fin = Except.error ("SQL failed: " ++ m)) := by
  refine ⟨?_, ?_, ?_⟩
  · show pollLoop d0 _ = _
    rw [pollLoop_chain fin ps d0 h0 hps]
    simp [pollLoop, hfin]
  · intro st hst hstate
    simp [finishStatement, hst, hstate]
  · intro st m hst hstate hmsg
    simp [finishStatement, failedMessage, hst, hstate, hmsg]

/-- Sample responses for the executor scenario. -/
def respPending : SqlResponse := ⟨some ⟨"PENDING", none⟩, "stmt1", none⟩

def respRunning : SqlResponse := ⟨some ⟨"RUNNING", none⟩, "stmt1", none⟩

def respSucceeded : SqlResponse :=
  ⟨some ⟨"SUCCEEDED", none⟩, "stmt1", some [["cat", "sch", "tbl", "tables/x"]]⟩

theorem executeSql_terminal_behavior_witness :
    executeSql (HttpResult.ok respPending)
        ([respRunning].map HttpResult.ok ++ [HttpResult.ok respSucceeded]) =
      some (finishStatement respSucceeded) ∧
    finishStatement respSucceeded = Except.ok respSucceeded ∧
    respSucceeded.dataArray = some [["cat", "sch", "tbl", "tables/x"]] :=
  ⟨(executeSql_terminal_behavior respPending respSucceeded [respRunning]
      (by decide) (by decide) (by decide)).1,
   (executeSql_terminal_behavior respPending respSucceeded [respRunning]
      (by decide) (by decide) (by decide)).2.1 ⟨"SUCCEEDED", none⟩ rfl rfl,
   rfl⟩

-- ------------------------------------------------------------------
-- Cache split lemmas and C4 / C6
-- ------------------------------------------------------------------

theorem splitLoop_uncached_mem (cache : List (String × CacheEntry)) (now : Int) :
    ∀ (req : List TypedUuid) (cached : List (String × ResolvedName))
      (uncached : List TypedUuid) (item : TypedUuid),
      item ∈ (splitLoop cache now req cached uncached).2 ↔
        item ∈ uncached ∨
          (item ∈ req ∧ hitEntry cache now (jsToLower item.uuid) = none) := by
  intro req
  induction req with
  | nil =>
    intro cached uncached item
    simp [splitLoop]
  | cons it rest ih =>
    intro cached uncached item
    cases heq : lookupA cache (jsToLower it.uuid) with
    | none =>
      have hhe : hitEntry cache now (jsToLower it.uuid) = none := by
        simp [hitEntry, heq]
      simp only [splitLoop, heq]
      rw [ih]
      simp only [List.mem_append, List.mem_cons, List.not_mem_nil, or_false]
      constructor
      · rintro ((h | h) | ⟨h1, h2⟩)
        · exact Or.inl h
        · subst h; exact Or.inr ⟨Or.inl rfl, hhe⟩
        · exact Or.inr ⟨Or.inr h1, h2⟩
      · rintro (h | ⟨h1 | h1, h2⟩)
        · exact Or.inl (Or.inl h)
        · subst h1; exact Or.inl (Or.inr rfl)
        · exact Or.inr ⟨h1, h2⟩
    | some entry =>
      by_cases httl : now - entry.cachedAt < CACHE_TTL_MS
      · have hhe : hitEntry cache now (jsToLower it.uuid) = some entry.data := by
          simp [hitEntry, heq, httl]
        simp only [splitLoop, heq, httl, if_true]
        rw [ih]
        simp only [List.mem_cons]
        constructor
        · rintro (h | ⟨h1, h2⟩)
          · exact Or.inl h
          · exact Or.inr ⟨Or.inr h1, h2⟩
        · rintro (h | ⟨h1 | h1, h2⟩)
          · exact Or.inl h
          · subst h1; rw [hhe] at h2; simp at h2
          · exact Or.inr ⟨h1, h2⟩
      · have hhe : hitEntry cache now (jsToLower it.uuid) = none := by
          simp [hitEntry, heq, httl]
        simp only [splitLoop, heq, httl, if_false]
        rw [ih]
        simp only [List.mem_append, List.mem_cons, List.not_mem_nil, or_false]
        constructor
        · rintro ((h | h) | ⟨h1, h2⟩)
          · exact Or.inl h
          · subst h; exact Or.inr ⟨Or.inl rfl, hhe⟩
          · exact Or.inr ⟨Or.inr h1, h2⟩
        · rintro (h | ⟨h1 | h1, h2⟩)
          · exact Or.inl (Or.inl h)
          · subst h1; exact Or.inl (Or.inr rfl)
          · exact Or.inr ⟨h1, h2⟩

theorem splitLoop_cached_none (cache : List (String × CacheEntry)) (now : Int)
    (key : String) (hkey : hitEntry cache now key = none) :
    ∀ (req : List TypedUuid) (cached : List (String × ResolvedName))
      (uncached : List TypedUuid),
      lookupA (splitLoop cache now req cached uncached).1 key =
        lookupA cached key := by
  intro req
  induction req with
  | nil =>
    intro cached uncached
    simp [splitLoop]
  | cons it rest ih =>
    intro cached uncached
    cases heq : lookupA cache (jsToLower it.uuid) with
    | none =>
      simp only [splitLoop, heq]
      exact ih cached (uncached ++ [it])
    | some entry =>
      by_cases httl : now - entry.cachedAt < CACHE_TTL_MS
      · have hne : (jsToLower it.uuid) ≠ key := fun h => by
          subst h
          simp [hitEntry, heq, httl] at hkey
        simp only [splitLoop, heq, httl, if_true]
        rw [ih]
        rw [lookupA_insertA]
        simp [hne]
      · simp only [splitLoop, heq, httl, if_false]
        exact ih cached (uncached ++ [it])

theorem splitLoop_cached_stable (cache : List (String × CacheEntry)) (now : Int)
    (key : String) (v : ResolvedName)
    (hkey : hitEntry cache now key = some v) :
    ∀ (req : List TypedUuid) (cached : List (String × ResolvedName))
      (uncached : List TypedUuid), lookupA cached key = some v →
      lookupA (splitLoop cache now req cached uncached).1 key = some v := by
  intro req
  induction req with
  | nil =>
    intro cached uncached hc
    simpa [splitLoop] using hc
  | cons it rest ih =>
    intro cached uncached hc
    cases heq : lookupA cache (jsToLower it.uuid) with
    | none =>
      simp only [splitLoop, heq]
      exact ih cached (uncached ++ [it]) hc
    | some entry =>
      by_cases httl : now - entry.cachedAt < CACHE_TTL_MS
      · simp only [splitLoop, heq, httl, if_true]
        refine ih _ uncached ?_
        rw [lookupA_insertA]
        by_cases hkeq : (jsToLower it.uuid) = key
        · subst hkeq
          simp [hitEntry, heq, httl] at hkey
          simp [hkey]
        · simp [hkeq, hc]
      · simp only [splitLoop, heq, httl, if_false]
        exact ih cached (uncached ++ [it]) hc

theorem splitLoop_cached_hit (cache : List (String × CacheEntry)) (now : Int)
    (key : String) (v : ResolvedName)
    (hkey : hitEntry cache now key = some v) :
    ∀ (req : List TypedUuid) (cached : List (String × ResolvedName))
      (uncached : List TypedUuid),
      (∃ item ∈ req, (jsToLower item.uuid) = key) →
      lookupA (splitLoop cache now req cached uncached).1 key = some v := by
  intro req
  induction req with
  | nil =>
    intro cached uncached hex
    obtain ⟨item, hmem, _⟩ := hex
    simp at hmem
  | cons it rest ih =>
    intro cached uncached hex
    obtain ⟨item, hmem, hkeq⟩ := hex
    rcases List.mem_cons.mp hmem with hme | hmr
    · subst hme
      subst hkeq
      cases heq : lookupA cache (jsToLower item.uuid) with
      | none => simp [hitEntry, heq] at hkey
      | some entry =>
        by_cases httl : now - entry.cachedAt < CACHE_TTL_MS
        · have hv : entry.data = v := by
            simpa [hitEntry, heq, httl] using hkey
          simp only [splitLoop, heq, httl, if_true]
          refine splitLoop_cached_stable cache now _ v hkey rest _ uncached ?_
          rw [lookupA_insertA]
          simp [hv]
        · simp [hitEntry, heq, httl] at hkey
    · cases heq : lookupA cache (jsToLower it.uuid) with
      | none =>
        simp only [splitLoop, heq]
        exact ih cached (uncached ++ [it]) ⟨item, hmr, hkeq⟩
      | some entry =>
        by_cases httl : now - entry.cachedAt < CACHE_TTL_MS
        · simp only [splitLoop, heq, httl, if_true]
          exact ih _ uncached ⟨item, hmr, hkeq⟩
        · simp only [splitLoop, heq, httl, if_false]
          exact ih cached (uncached ++ [it]) ⟨item, hmr, hkeq⟩

theorem getCachedResults_lookup (cache : List (String × CacheEntry)) (now : Int)
    (req : List TypedUuid) (item : TypedUuid) (h : item ∈ req) :
    lookupA (getCachedResults cache now req).1 (jsToLower item.uuid) =
      hitEntry cache now (jsToLower item.uuid) := by
  simp only [getCachedResults]
  cases hhe : hitEntry cache now (jsToLower item.uuid) with
  | some v => exact splitLoop_cached_hit cache now _ v hhe req [] [] ⟨item, h, rfl⟩
  | none =>
    rw [splitLoop_cached_none cache now _ hhe req [] []]
    simp [lookupA]

/-- C4: `getCachedResults` partitions the request totally: every requested
identifier is either a key of the hit map or an element of the miss list,
and never both or neither. -/
theorem getCachedResults_partition (cache : List (String × CacheEntry))
    (now : Int) (req : List TypedUuid) (item : TypedUuid) (h : item ∈ req) :
    (lookupA (getCachedResults cache now req).1 (jsToLower item.uuid) ≠ none ∧
      item ∉ (getCachedResults cache now req).2) ∨
    (lookupA (getCachedResults cache now req).1 (jsToLower item.uuid) = none ∧
      item ∈ (getCachedResults cache now req).2) := by
  have hl := getCachedResults_lookup cache now req item h
  have hm := splitLoop_uncached_mem cache now req [] [] item
  cases hhe : hitEntry cache now (jsToLower item.uuid) with
  | some v =>
    left
    refine ⟨by rw [hl, hhe]; simp, ?_⟩
    intro hmem
    rcases (hm.mp (by simpa [getCachedResults] using hmem)) with h' | ⟨_, h'⟩
    · simp at h'
    · rw [hhe] at h'; simp at h'
  | none =>
    right
    refine ⟨by rw [hl, hhe], ?_⟩
    show item ∈ (splitLoop cache now req [] []).2
    exact hm.mpr (Or.inr ⟨h, hhe⟩)

theorem hitEntry_some_iff (cache : List (String × CacheEntry)) (now : Int)
    (key : String) :
    (hitEntry cache now key).isSome = true ↔
      ∃ e, lookupA cache key = some e ∧ now - e.cachedAt < CACHE_TTL_MS := by
  cases heq : lookupA cache key with
  | none => simp [hitEntry, heq]
  | some entry =>
    by_cases httl : now - entry.cachedAt < CACHE_TTL_MS
    · simp [hitEntry, heq, httl]
    · simp [hitEntry, heq, httl]

/-- C6: a requested id is a hit exactly when a cache entry exists for its
lower-cased token and `now - cachedAt < CACHE_TTL_MS`; otherwise (no entry,
or age at or beyond the TTL) it is a miss; and the TTL is fixed at 24 hours
in milliseconds. -/
theorem split_hit_iff_ttl (cache : List (String × CacheEntry)) (now : Int)
    (req : List TypedUuid) (item : TypedUuid) (h : item ∈ req) :
    CACHE_TTL_MS = 86400000 ∧
    ((lookupA (getCachedResults cache now req).1 (jsToLower item.uuid)).isSome = true ↔
      ∃ e, lookupA cache (jsToLower item.uuid) = some e ∧
        now - e.cachedAt < CACHE_TTL_MS) ∧
    (item ∈ (getCachedResults cache now req).2 ↔
      ¬ ∃ e, lookupA cache (jsToLower item.uuid) = some e ∧
        now - e.cachedAt < CACHE_TTL_MS) := by
  refine ⟨by decide, ?_, ?_⟩
  · rw [getCachedResults_lookup cache now req item h]
    exact hitEntry_some_iff cache now (jsToLower item.uuid)
  · rw [show (getCachedResults cache now req).2 = (splitLoop cache now req [] []).2
        from rfl]
    rw [splitLoop_uncached_mem cache now req [] [] item]
    rw [← hitEntry_some_iff cache now (jsToLower item.uuid)]
    cases hhe : hitEntry cache now (jsToLower item.uuid) with
    | some v => simp [h, hhe]
    | none => simp [h, hhe]

-- Sample data shared by the concrete witnesses.

def uuidA : String := "aaaaaaaa-aaaa-aaaa-aaaa-aaaaaaaaaaaa"

def uuidB : String := "bbbbbbbb-bbbb-bbbb-bbbb-bbbbbbbbbbbb"

def nameA : ResolvedName := ⟨"table", "main.sales.orders"⟩

def sampleCache : List (String × CacheEntry) := [(uuidA, ⟨nameA, 0⟩)]

def itemA : TypedUuid := ⟨uuidA, "table"⟩

def itemB : TypedUuid := ⟨uuidB, "table"⟩

theorem getCachedResults_partition_witness :
    (lookupA (getCachedResults sampleCache 1000 [itemA, itemB]).1
        (jsToLower itemA.uuid) ≠ none ∧
      itemA ∉ (getCachedResults sampleCache 1000 [itemA, itemB]).2) ∨
    (lookupA (getCachedResults sampleCache 1000 [itemA, itemB]).1
        (jsToLower itemA.uuid) = none ∧
      itemA ∈ (getCachedResults sampleCache 1000 [itemA, itemB]).2) :=
  getCachedResults_partition sampleCache 1000 [itemA, itemB] itemA (by decide)

theorem split_hit_iff_ttl_witness :
    CACHE_TTL_MS = 86400000 ∧
    ((lookupA (getCachedResults sampleCache 1000 [itemA, itemB]).1
        (jsToLower itemB.uuid)).isSome = true ↔
      ∃ e, lookupA sampleCache (jsToLower itemB.uuid) = some e ∧
        1000 - e.cachedAt < CACHE_TTL_MS) ∧
    (itemB ∈ (getCachedResults sampleCache 1000 [itemA, itemB]).2 ↔
      ¬ ∃ e, lookupA sampleCache (jsToLower itemB.uuid) = some e ∧
        1000 - e.cachedAt < CACHE_TTL_MS) :=
  split_hit_iff_ttl sampleCache 1000 [itemA, itemB] itemB (by decide)

-- ------------------------------------------------------------------
-- Merge lemmas, all-failure runs, C10 and C5
-- ------------------------------------------------------------------

theorem mergeFold_not_mem (t : Int) :
    ∀ (f : List (String × ResolvedName)) (c : List (String × CacheEntry))
      (k : String), k ∉ f.map Prod.fst →
      lookupA (f.foldl (fun c p => insertA c p.1 ⟨p.2, t⟩) c) k = lookupA c k := by
  intro f
  induction f with
  | nil => intro c k _; rfl
  | cons p rest ih =>
    intro c k hk
    simp only [List.map_cons, List.mem_cons, not_or] at hk
    have h' : p.1 ≠ k := fun h => hk.1 h.symm
    rw [List.foldl_cons, ih _ k hk.2, lookupA_insertA, if_neg h']

theorem mergeFold_mem (t : Int) :
    ∀ (f : List (String × ResolvedName)) (c : List (String × CacheEntry))
      (k : String), k ∈ f.map Prod.fst →
      ∃ v, lookupA (f.foldl (fun c p => insertA c p.1 ⟨p.2, t⟩) c) k =
        some ⟨v, t⟩ ∧ (k, v) ∈ f := by
  intro f
  induction f with
  | nil => intro c k hk; simp at hk
  | cons p rest ih =>
    intro c k hk
    by_cases hr : k ∈ rest.map Prod.fst
    · obtain ⟨v, h1, h2⟩ := ih (insertA c p.1 ⟨p.2, t⟩) k hr
      exact ⟨v, by rw [List.foldl_cons]; exact h1, List.mem_cons_of_mem p h2⟩
    · have hk' : k = p.1 ∨ k ∈ rest.map Prod.fst := by simpa using hk
      have hkp : k = p.1 := hk'.resolve_right hr
      refine ⟨p.2, ?_, ?_⟩
      · rw [List.foldl_cons, mergeFold_not_mem t rest _ k hr, lookupA_insertA,
          if_pos hkp.symm]
      · rw [hkp, Prod.mk.eta]
        exact List.mem_cons_self p rest

theorem tableGroup_allfail (net : Net)
    (hf : ∀ sql, ∃ e, runSql net sql = some (Except.error e))
    (us : List TypedUuid) :
    ∃ tr, tableGroup net us = some ([], tr) := by
  by_cases hus : us.length > 0
  · obtain ⟨e, he⟩ := hf (tableSql (tableConditions us))
    exact ⟨[tableSql (tableConditions us)], by simp [tableGroup, hus, he]⟩
  · exact ⟨[], by simp [tableGroup, hus]⟩

theorem schemaLoop_allfail (net : Net)
    (hf : ∀ sql, ∃ e, runSql net sql = some (Except.error e)) :
    ∀ (us : List TypedUuid) (acc : List (String × ResolvedName))
      (tr : List String), ∃ tr', schemaLoop net us acc tr = some (acc, tr') := by
  intro us
  induction us with
  | nil => intro acc tr; exact ⟨tr, rfl⟩
  | cons u rest ih =>
    intro acc tr
    obtain ⟨e, he⟩ := hf (schemaSql u.uuid)
    obtain ⟨tr', h'⟩ := ih acc (tr ++ [schemaSql u.uuid])
    refine ⟨tr', ?_⟩
    simp only [schemaLoop, he]
    exact h'

theorem catalogLoop_allfail (net : Net)
    (hf : ∀ sql, ∃ e, runSql net sql = some (Except.error e)) :
    ∀ (us : List TypedUuid) (acc : List (String × ResolvedName))
      (tr : List String), ∃ tr', catalogLoop net us acc tr = some (acc, tr') := by
  intro us
  induction us with
  | nil => intro acc tr; exact ⟨tr, rfl⟩
  | cons u rest ih =>
    intro acc tr
    obtain ⟨e, he⟩ := hf (catalogSql u.uuid)
    obtain ⟨tr', h'⟩ := ih acc (tr ++ [catalogSql u.uuid])
    refine ⟨tr', ?_⟩
    simp only [catalogLoop, he]
    exact h'

theorem resolveUuids_allfail (net : Net)
    (hf : ∀ sql, ∃ e, runSql net sql = some (Except.error e))
    (l : List TypedUuid) : ∃ tr, resolveUuids net l = some ([], tr) := by
  by_cases h0 : l.length = 0
  · exact ⟨[], by simp [resolveUuids, h0]⟩
  · by_cases h1 : (l.filter (fun u => uuidRe u.uuid)).length = 0
    · exact ⟨[], by simp [resolveUuids, h0, h1]⟩
    · obtain ⟨tr1, ht⟩ := tableGroup_allfail net hf
        ((l.filter (fun u => uuidRe u.uuid)).filter (fun u => u.type == "table"))
      obtain ⟨tr2, hs⟩ := schemaLoop_allfail net hf
        ((l.filter (fun u => uuidRe u.uuid)).filter (fun u => u.type == "schema"))
        [] tr1
      obtain ⟨tr3, hc⟩ := catalogLoop_allfail net hf
        ((l.filter (fun u => uuidRe u.uuid)).filter (fun u => u.type == "catalog"))
        [] tr2
      refine ⟨tr3, ?_⟩
      simp only [resolveUuids, h0, if_false, h1, ht, hs, hc]

theorem lookupUuids_allfail (net : Net) (config : Config) (st : StoreState)
    (now : Int) (uuids : List TypedUuid)
    (hpat : config.patToken ≠ "")
    (hf : ∀ sql, ∃ e, runSql net sql = some (Except.error e)) :
    ∃ out, lookupUuids net config st now uuids = some out ∧
      out.matchMap = (getCachedResults st.uuidCache now (normalizeUuids uuids)).1 ∧
      out.error = none ∧
      out.store.uuidCache = st.uuidCache ∧
      ((getCachedResults st.uuidCache now (normalizeUuids uuids)).2 ≠ [] →
        out.store.cacheUpdatedAt = some now) ∧
      ((getCachedResults st.uuidCache now (normalizeUuids uuids)).2 = [] →
        out.store = st) := by
  by_cases h0 : (normalizeUuids uuids).length = 0
  · have hnil : normalizeUuids uuids = [] := List.length_eq_zero.mp h0
    refine ⟨⟨[], none, st, []⟩, ?_, ?_, rfl, rfl, ?_, fun _ => rfl⟩
    · simp [lookupUuids, h0]
    · rw [hnil]; rfl
    · rw [hnil]; intro hne; exact absurd rfl hne
  · by_cases hm :
      (getCachedResults st.uuidCache now (normalizeUuids uuids)).2.length > 0
    · obtain ⟨tr, hres⟩ := resolveUuids_allfail net hf
        (getCachedResults st.uuidCache now (normalizeUuids uuids)).2
      refine ⟨⟨(getCachedResults st.uuidCache now (normalizeUuids uuids)).1, none,
        ⟨st.uuidCache, some now⟩, tr⟩, ?_, rfl, rfl, rfl, fun _ => rfl, ?_⟩
      · simp only [lookupUuids, h0, if_false, hm, if_true, hpat, hres]
        rfl
      · intro hnil
        rw [hnil] at hm
        simp at hm
    · refine ⟨⟨(getCachedResults st.uuidCache now (normalizeUuids uuids)).1, none,
        st, []⟩, ?_, rfl, rfl, rfl, ?_, fun _ => rfl⟩
      · simp only [lookupUuids, h0, if_false, hm]
      · intro hne
        exact absurd (List.eq_nil_of_length_eq_zero (by omega)) hne

/-- C10: `updateCache` writes an entry (value plus the current timestamp)
for exactly the keys of the fresh result map, leaves every other cache
entry unchanged, and unconditionally sets the stored cacheUpdatedAt to now;
in particular a lookup whose misses all fail to resolve merges an empty
fresh map, changing no entry while still setting cacheUpdatedAt. -/
theorem updateCache_frame (c : List (String × CacheEntry)) (t : Int)
    (f : List (String × ResolvedName)) :
    (updateCache c t f).2 = t ∧
    (∀ k, k ∉ f.map Prod.fst →
      lookupA (updateCache c t f).1 k = lookupA c k) ∧
    (∀ k, k ∈ f.map Prod.fst →
      ∃ v, lookupA (updateCache c t f).1 k = some ⟨v, t⟩ ∧ (k, v) ∈ f) ∧
    (updateCache c t []).1 = c ∧
    (∀ net config st uuids out, config.patToken ≠ "" →
      (∀ sql, ∃ e, runSql net sql = some (Except.error e)) →
      lookupUuids net config st t uuids = some out →
      out.store.uuidCache = st.uuidCache ∧
      ((getCachedResults st.uuidCache t (normalizeUuids uuids)).2 ≠ [] →
        out.store.cacheUpdatedAt = some t)) := by
  refine ⟨rfl, ?_, ?_, rfl, ?_⟩
  · intro k hk
    exact mergeFold_not_mem t f c k hk
  · intro k hk
    exact mergeFold_mem t f c k hk
  · intro net config st uuids out hpat hfail hrun
    obtain ⟨out', hrun', _, _, hcache, hupd, _⟩ :=
      lookupUuids_allfail net config st t uuids hpat hfail
    rw [hrun] at hrun'
    cases hrun'
    exact ⟨hcache, hupd⟩

/-- C5: merging a fresh result map into the cache and then splitting on
exactly the ids of that map, at any time less than the TTL after the merge,
yields every one of those ids as a hit and none as a miss. -/
theorem merge_then_split_hits (c : List (String × CacheEntry))
    (f : List (String × ResolvedName)) (t now : Int) (req : List TypedUuid)
    (httl : now - t < CACHE_TTL_MS)
    (hlow : ∀ p ∈ f, jsToLower (p : String × ResolvedName).1 = p.1)
    (hreq : ∀ item ∈ req, item.uuid ∈ f.map Prod.fst)
    (hcov : ∀ k ∈ f.map Prod.fst, ∃ item ∈ req, item.uuid = k) :
    (getCachedResults (updateCache c t f).1 now req).2 = [] ∧
    ∀ k ∈ f.map Prod.fst,
      (lookupA (getCachedResults (updateCache c t f).1 now req).1 k).isSome =
        true := by
  have hkeylow : ∀ k ∈ f.map Prod.fst, jsToLower k = k := by
    intro k hk
    obtain ⟨p, hp, hpk⟩ := List.mem_map.mp hk
    rw [← hpk]
    exact hlow p hp
  have hhit : ∀ k ∈ f.map Prod.fst,
      ∃ v, hitEntry (updateCache c t f).1 now k = some v := by
    intro k hk
    obtain ⟨v, hv, _⟩ := mergeFold_mem t f c k hk
    refine ⟨v, ?_⟩
    simp only [hitEntry]
    rw [show (updateCache c t f).1 =
      f.foldl (fun c p => insertA c p.1 ⟨p.2, t⟩) c from rfl] at *
    rw [hv]
    simp [httl]
  constructor
  · rw [List.eq_nil_iff_forall_not_mem]
    intro item hmem
    rw [show (getCachedResults (updateCache c t f).1 now req).2 =
      (splitLoop (updateCache c t f).1 now req [] []).2 from rfl] at hmem
    rcases (splitLoop_uncached_mem (updateCache c t f).1 now req [] [] item).mp
        hmem with h' | ⟨hin, hnone⟩
    · simp at h'
    · obtain ⟨v, hv⟩ := hhit item.uuid (hreq item hin)
      rw [hkeylow item.uuid (hreq item hin)] at hnone
      rw [hv] at hnone
      cases hnone
  · intro k hk
    obtain ⟨item, hitem, hik⟩ := hcov k hk
    obtain ⟨v, hv⟩ := hhit k hk
    rw [show (getCachedResults (updateCache c t f).1 now req).1 =
      (splitLoop (updateCache c t f).1 now req [] []).1 from rfl]
    rw [splitLoop_cached_hit (updateCache c t f).1 now k v hv req [] []
      ⟨item, hitem, by rw [hik]; exact hkeylow k hk⟩]
    rfl

def freshF : List (String × ResolvedName) := [(uuidB, ⟨"table", "main.web.events"⟩)]

theorem updateCache_frame_witness :
    lookupA (updateCache sampleCache 1000 freshF).1 uuidA = lookupA sampleCache uuidA ∧
    (updateCache sampleCache 1000 freshF).2 = 1000 :=
  ⟨(updateCache_frame sampleCache 1000 freshF).2.1 uuidA (by decide),
   (updateCache_frame sampleCache 1000 freshF).1⟩

theorem merge_then_split_hits_witness :
    (getCachedResults (updateCache sampleCache 50 freshF).1 1000 [itemB]).2 = [] ∧
    ∀ k ∈ freshF.map Prod.fst,
      (lookupA (getCachedResults (updateCache sampleCache 50 freshF).1 1000
        [itemB]).1 k).isSome = true :=
  merge_then_split_hits sampleCache freshF 50 1000 [itemB]
    (by decide) (by decide) (by decide) (by decide)

-- ------------------------------------------------------------------
-- Resolver trace shape, C7 and C8
-- ------------------------------------------------------------------

theorem schemaLoop_trace (net : Net) :
    ∀ (us : List TypedUuid) (acc res : List (String × ResolvedName))
      (tr tr' : List String),
      schemaLoop net us acc tr = some (res, tr') →
      tr' = tr ++ us.map (fun u => schemaSql u.uuid) := by
  intro us
  induction us with
  | nil =>
    intro acc res tr tr' h
    cases h
    simp
  | cons u rest ih =>
    intro acc res tr tr' h
    cases hr : runSql net (schemaSql u.uuid) with
    | none =>
      simp only [schemaLoop, hr] at h
      exact Option.noConfusion h
    | some outcome =>
      cases outcome with
      | error e =>
        simp only [schemaLoop, hr] at h
        rw [ih _ _ _ _ h]
        simp
      | ok r =>
        cases hd : r.dataArray with
        | none =>
          simp only [schemaLoop, hr, hd] at h
          rw [ih _ _ _ _ h]
          simp
        | some rows =>
          cases rows with
          | nil =>
            simp only [schemaLoop, hr, hd] at h
            rw [ih _ _ _ _ h]
            simp
          | cons row more =>
            simp only [schemaLoop, hr, hd] at h
            rw [ih _ _ _ _ h]
            simp

theorem catalogLoop_trace (net : Net) :
    ∀ (us : List TypedUuid) (acc res : List (String × ResolvedName))
      (tr tr' : List String),
      catalogLoop net us acc tr = some (res, tr') →
      tr' = tr ++ us.map (fun u => catalogSql u.uuid) := by
  intro us
  induction us with
  | nil =>
    intro acc res tr tr' h
    cases h
    simp
  | cons u rest ih =>
    intro acc res tr tr' h
    cases hr : runSql net (catalogSql u.uuid) with
    | none =>
      simp only [catalogLoop, hr] at h
      exact Option.noConfusion h
    | some outcome =>
      cases outcome with
      | error e =>
        simp only [catalogLoop, hr] at h
        rw [ih _ _ _ _ h]
        simp
      | ok r =>
        cases hd : r.dataArray with
        | none =>
          simp only [catalogLoop, hr, hd] at h
          rw [ih _ _ _ _ h]
          simp
        | some rows =>
          cases rows with
          | nil =>
            simp only [catalogLoop, hr, hd] at h
            rw [ih _ _ _ _ h]
            simp
          | cons row more =>
            simp only [catalogLoop, hr, hd] at h
            rw [ih _ _ _ _ h]
            simp

theorem tableGroup_trace (net : Net) (us : List TypedUuid)
    (res : List (String × ResolvedName)) (tr : List String)
    (h : tableGroup net us = some (res, tr)) :
    tr = if us.length > 0 then [tableSql (tableConditions us)] else [] := by
  by_cases hus : us.length > 0
  · rw [if_pos hus]
    simp only [tableGroup, hus, if_true] at h
    cases hr : runSql net (tableSql (tableConditions us)) with
    | none =>
      simp only [hr] at h
      exact Option.noConfusion h
    | some outcome =>
      cases outcome with
      | error e =>
        simp only [hr] at h
        cases h
        rfl
      | ok r =>
        cases hd : r.dataArray with
        | none =>
          simp only [hr, hd] at h
          cases h
          rfl
        | some rows =>
          simp only [hr, hd] at h
          cases h
          rfl
  · rw [if_neg hus]
    simp only [tableGroup, hus, if_false] at h
    cases h
    rfl

theorem resolveUuids_trace (net : Net) (l : List TypedUuid)
    (res : List (String × ResolvedName)) (tr : List String)
    (h : resolveUuids net l = some (res, tr)) :
    tr = (if ((l.filter (fun u => uuidRe u.uuid)).filter
            (fun u => u.type == "table")).length > 0 then
            [tableSql (tableConditions ((l.filter (fun u => uuidRe u.uuid)).filter
              (fun u => u.type == "table")))]
          else []) ++
        ((l.filter (fun u => uuidRe u.uuid)).filter
          (fun u => u.type == "schema")).map (fun u => schemaSql u.uuid) ++
        ((l.filter (fun u => uuidRe u.uuid)).filter
          (fun u => u.type == "catalog")).map (fun u => catalogSql u.uuid) := by
  by_cases h0 : l.length = 0
  · have hnil : l = [] := List.length_eq_zero.mp h0
    subst hnil
    simp only [resolveUuids] at h
    cases h
    simp
  · by_cases h1 : (l.filter (fun u => uuidRe u.uuid)).length = 0
    · have hnil : l.filter (fun u => uuidRe u.uuid) = [] :=
        List.length_eq_zero.mp h1
      simp only [resolveUuids, h0, if_false, h1, if_true] at h
      cases h
      rw [hnil]
      simp
    · simp only [resolveUuids, h0, if_false, h1, if_false] at h
      cases ht : tableGroup net
          ((l.filter (fun u => uuidRe u.uuid)).filter
            (fun u => u.type == "table")) with
      | none =>
        simp only [ht] at h
        exact Option.noConfusion h
      | some p1 =>
        obtain ⟨res1, tr1⟩ := p1
        cases hs : schemaLoop net
            ((l.filter (fun u => uuidRe u.uuid)).filter
              (fun u => u.type == "schema")) res1 tr1 with
        | none =>
          simp only [ht, hs] at h
          exact Option.noConfusion h
        | some p2 =>
          obtain ⟨res2, tr2⟩ := p2
          simp only [ht, hs] at h
          have e3 := catalogLoop_trace net _ _ _ _ _ h
          have e2 := schemaLoop_trace net _ _ _ _ _ hs
          have e1 := tableGroup_trace net _ _ _ ht
          rw [e3, e2, e1]

/-- C8: on a valid input the resolver issues exactly one batched executor
call for the whole table group when it is non-empty (a single IN (...)
predicate over all its ids), plus exactly one call per schema id and one
per catalog id; the trace of issued statements and its length follow. -/
theorem resolveUuids_call_counts (net : Net) (l : List TypedUuid)
    (res : List (String × ResolvedName)) (tr : List String)
    (hval : ∀ u ∈ l, uuidRe u.uuid = true)
    (h : resolveUuids net l = some (res, tr)) :
    tr = (if (l.filter (fun u => u.type == "table")).length > 0 then
            [tableSql (tableConditions (l.filter (fun u => u.type == "table")))]
          else []) ++
        (l.filter (fun u => u.type == "schema")).map (fun u => schemaSql u.uuid) ++
        (l.filter (fun u => u.type == "catalog")).map (fun u => catalogSql u.uuid) ∧
    tr.length =
      (if (l.filter (fun u => u.type == "table")).length > 0 then 1 else 0) +
        (l.filter (fun u => u.type == "schema")).length +
        (l.filter (fun u => u.type == "catalog")).length := by
  have hfl : l.filter (fun u => uuidRe u.uuid) = l :=
    List.filter_eq_self.mpr hval
  have htr := resolveUuids_trace net l res tr h
  rw [hfl] at htr
  refine ⟨htr, ?_⟩
  rw [htr]
  by_cases hta : (l.filter (fun u => u.type == "table")).length > 0
  · simp only [if_pos hta, List.length_append, List.length_map,
      List.length_singleton]
  · simp only [if_neg hta, List.length_append, List.length_map,
      List.length_nil]

/-- C7: tokens that do not match the canonical UUID shape are dropped before
query construction (`resolveUuids` behaves exactly as on the pre-filtered
input), and every SQL statement the resolver passes to the executor is
built from validated tokens only: either the batched table query over a
non-empty list of valid uuids, or a schema/catalog query over one valid
uuid. -/
theorem resolveUuids_injection_safety (net : Net) (l : List TypedUuid) :
    resolveUuids net l = resolveUuids net (l.filter (fun u => uuidRe u.uuid)) ∧
    (∀ res tr, resolveUuids net l = some (res, tr) → ∀ sql ∈ tr,
      (∃ us : List TypedUuid, us ≠ [] ∧ (∀ u ∈ us, uuidRe u.uuid = true) ∧
        sql = tableSql (tableConditions us)) ∨
      (∃ u : String, uuidRe u = true ∧ sql = schemaSql u) ∨
      (∃ u : String, uuidRe u = true ∧ sql = catalogSql u)) := by
  have hidem : (l.filter (fun u => uuidRe u.uuid)).filter
      (fun u => uuidRe u.uuid) = l.filter (fun u => uuidRe u.uuid) :=
    List.filter_eq_self.mpr (fun u hu => by simpa using List.of_mem_filter hu)
  constructor
  · by_cases h0 : l.length = 0
    · have hnil : l = [] := List.length_eq_zero.mp h0
      subst hnil
      rfl
    · by_cases h1 : (l.filter (fun u => uuidRe u.uuid)).length = 0
      · simp only [resolveUuids, h0, if_false, h1, if_true]
      · simp only [resolveUuids, h0, if_false, h1, if_false, hidem]
  · intro res tr h sql hsql
    rw [resolveUuids_trace net l res tr h] at hsql
    have hvalid : ∀ u ∈ l.filter (fun u => uuidRe u.uuid),
        uuidRe u.uuid = true := fun u hu => by
      simpa using List.of_mem_filter hu
    rcases List.mem_append.mp hsql with hsql' | hcat
    · rcases List.mem_append.mp hsql' with htab | hsch
      · left
        by_cases hta : ((l.filter (fun u => uuidRe u.uuid)).filter
            (fun u => u.type == "table")).length > 0
        · rw [if_pos hta] at htab
          refine ⟨(l.filter (fun u => uuidRe u.uuid)).filter
            (fun u => u.type == "table"), ?_, ?_, ?_⟩
          · intro hnil
            rw [hnil] at hta
            simp at hta
          · intro u hu
            exact hvalid u (List.mem_of_mem_filter hu)
          · simpa using htab
        · rw [if_neg hta] at htab
          simp at htab
      · right; left
        obtain ⟨u, hu, hequ⟩ := List.mem_map.mp hsch
        exact ⟨u.uuid, hvalid u (List.mem_of_mem_filter hu), hequ.symm⟩
    · right; right
      obtain ⟨u, hu, hequ⟩ := List.mem_map.mp hcat
      exact ⟨u.uuid, hvalid u (List.mem_of_mem_filter hu), hequ.symm⟩

-- ------------------------------------------------------------------
-- Concrete environments, C1 and C2
-- ------------------------------------------------------------------

def sampleConfig : Config := ⟨"https://ws.example.com", "wh1", "dapi-token"⟩

def noTokenConfig : Config := ⟨"https://ws.example.com", "wh1", ""⟩

/-- An environment in which every statement submits fine and the first poll
reports FAILED with the given error message. -/
def failNet (m : String) : Net := fun _ =>
  (HttpResult.ok ⟨some ⟨"PENDING", none⟩, "stmt1", none⟩,
   [HttpResult.ok ⟨some ⟨"FAILED", some m⟩, "stmt1", none⟩])

theorem runSql_failNet (m : String) (sql : String) :
    runSql (failNet m) sql = some (Except.error ("SQL failed: " ++ m)) := rfl

/-- C1 counterexample: a lookup whose miss (uuidB) resolves through a poll
sequence ending FAILED with `error.message = "x"` returns the unrelated
cache hit for uuidA and no new matches — but its error field is `none`, not
an "x"-derived string: the statement failure is swallowed inside
resolveUuids (background.js lines 157-159) and never surfaced. -/
theorem lookup_failed_group_error_unset_cex :
    lookupUuids (failNet "x") sampleConfig ⟨sampleCache, none⟩ 1000
        [itemA, itemB] =
      some ⟨[(uuidA, nameA)], none, ⟨sampleCache, some 1000⟩,
        [tableSql (tableConditions [⟨uuidB, "table"⟩])]⟩ := by
  decide

/-- C1 (amended): when the statements resolving the misses fail (for example
through a poll sequence ending FAILED with message "x"), lookup still
returns every cache hit and no new matches for the failed ids, and leaves
the cache entries untouched — but the error field is unset: the group
failure is only logged inside the resolver, never surfaced to the caller. -/
theorem lookup_failed_group_keeps_hits_error_unset (net : Net)
    (config : Config) (st : StoreState) (now : Int) (uuids : List TypedUuid)
    (hpat : config.patToken ≠ "")
    (hf : ∀ sql, ∃ e, runSql net sql = some (Except.error e)) :
    ∃ out, lookupUuids net config st now uuids = some out ∧
      out.matchMap =
        (getCachedResults st.uuidCache now (normalizeUuids uuids)).1 ∧
      out.error = none := by
  obtain ⟨out, h1, h2, h3, _⟩ :=
    lookupUuids_allfail net config st now uuids hpat hf
  exact ⟨out, h1, h2, h3⟩

theorem lookup_failed_group_keeps_hits_error_unset_witness :
    ∃ out, lookupUuids (failNet "x") sampleConfig ⟨sampleCache, none⟩ 1000
        [itemA, itemB] = some out ∧
      out.matchMap =
        (getCachedResults sampleCache 1000 (normalizeUuids [itemA, itemB])).1 ∧
      out.error = none :=
  lookup_failed_group_keeps_hits_error_unset (failNet "x") sampleConfig
    ⟨sampleCache, none⟩ 1000 [itemA, itemB] (by decide)
    (fun sql => ⟨"SQL failed: x", runSql_failNet "x" sql⟩)

/-- C2: with at least one cache miss and no PAT token configured, lookup
returns exactly the cache hits together with the explanatory error, leaves
the store untouched, and issues no executor call (its trace is empty). -/
theorem lookup_no_token_no_query (net : Net) (config : Config)
    (st : StoreState) (now : Int) (uuids : List TypedUuid)
    (hpat : config.patToken = "")
    (hmiss : (getCachedResults st.uuidCache now (normalizeUuids uuids)).2 ≠ []) :
    lookupUuids net config st now uuids =
      some ⟨(getCachedResults st.uuidCache now (normalizeUuids uuids)).1,
        some "No PAT token configured", st, []⟩ := by
  have h0 : ¬ (normalizeUuids uuids).length = 0 := by
    intro h
    rw [List.length_eq_zero.mp h] at hmiss
    exact hmiss rfl
  have hm :
      (getCachedResults st.uuidCache now (normalizeUuids uuids)).2.length > 0 := by
    cases hcase : (getCachedResults st.uuidCache now (normalizeUuids uuids)).2 with
    | nil => exact absurd hcase hmiss
    | cons a l => simp [hcase]
  simp only [lookupUuids, h0, if_false, hm, if_true, hpat]

theorem lookup_no_token_no_query_witness :
    lookupUuids (failNet "x") noTokenConfig ⟨sampleCache, none⟩ 1000
        [itemA, itemB] =
      some ⟨(getCachedResults sampleCache 1000 (normalizeUuids [itemA, itemB])).1,
        some "No PAT token configured", ⟨sampleCache, none⟩, []⟩ :=
  lookup_no_token_no_query (failNet "x") noTokenConfig ⟨sampleCache, none⟩ 1000
    [itemA, itemB] rfl (by decide)

-- ------------------------------------------------------------------
-- Witnesses for C7 and C8
-- ------------------------------------------------------------------

def badItem : TypedUuid := ⟨"zz-not-a-uuid", "table"⟩

theorem resolveUuids_injection_safety_witness :
    resolveUuids (failNet "x") [badItem, itemB] =
      resolveUuids (failNet "x") ([badItem, itemB].filter
        (fun u => uuidRe u.uuid)) :=
  (resolveUuids_injection_safety (failNet "x") [badItem, itemB]).1

def itemSchema : TypedUuid :=
  ⟨"cccccccc-cccc-cccc-cccc-cccccccccccc", "schema"⟩

def itemCatalog : TypedUuid :=
  ⟨"dddddddd-dddd-dddd-dddd-dddddddddddd", "catalog"⟩

theorem resolveUuids_call_counts_witness :
    [tableSql (tableConditions [itemA, itemB]), schemaSql itemSchema.uuid,
        catalogSql itemCatalog.uuid] =
      (if (([itemA, itemB, itemSchema, itemCatalog].filter
            (fun u => u.type == "table")).length > 0) then
          [tableSql (tableConditions ([itemA, itemB, itemSchema,
            itemCatalog].filter (fun u => u.type == "table")))]
        else []) ++
        ([itemA, itemB, itemSchema, itemCatalog].filter
          (fun u => u.type == "schema")).map (fun u => schemaSql u.uuid) ++
        ([itemA, itemB, itemSchema, itemCatalog].filter
          (fun u => u.type == "catalog")).map (fun u => catalogSql u.uuid) ∧
    [tableSql (tableConditions [itemA, itemB]), schemaSql itemSchema.uuid,
        catalogSql itemCatalog.uuid].length =
      (if (([itemA, itemB, itemSchema, itemCatalog].filter
            (fun u => u.type == "table")).length > 0) then 1 else 0) +
        ([itemA, itemB, itemSchema, itemCatalog].filter
          (fun u => u.type == "schema")).length +
        ([itemA, itemB, itemSchema, itemCatalog].filter
          (fun u => u.type == "catalog")).length :=
  resolveUuids_call_counts (failNet "x") [itemA, itemB, itemSchema, itemCatalog]
    [] [tableSql (tableConditions [itemA, itemB]), schemaSql itemSchema.uuid,
      catalogSql itemCatalog.uuid] (by decide) (by decide)

-- ------------------------------------------------------------------
-- Producer tie-break lemmas and C9
-- ------------------------------------------------------------------

theorem lookupA_updateTypedUuid_ne (m : List (String × String))
    (k t u : String) (h : u ≠ k) :
    lookupA (updateTypedUuid m k t) u = lookupA m u := by
  cases hE : lookupA m k with
  | none =>
    simp only [updateTypedUuid, hE]
    rw [lookupA_insertA, if_neg (fun hh => h hh.symm)]
  | some existing =>
    simp only [updateTypedUuid, hE]
    by_cases hc : existing = "" ∨ typePriority t > typePriority existing
    · rw [if_pos hc, lookupA_insertA, if_neg (fun hh => h hh.symm)]
    · rw [if_neg hc]

theorem buildTypedUuids_append (occs : List (String × String))
    (p : String × String) :
    buildTypedUuids (occs ++ [p]) =
      updateTypedUuid (buildTypedUuids occs) p.1 p.2 := by
  simp [buildTypedUuids, List.foldl_append]

theorem buildTypedUuids_not_mem (occs : List (String × String)) (u : String)
    (h : u ∉ occs.map Prod.fst) : lookupA (buildTypedUuids occs) u = none := by
  revert h
  induction occs using List.reverseRecOn with
  | nil => intro _; rfl
  | append_singleton occs p ih =>
    intro h
    simp only [List.map_append, List.mem_append, not_or] at h
    rw [buildTypedUuids_append,
      lookupA_updateTypedUuid_ne _ _ _ _ (by simpa using h.2)]
    exact ih (by simpa using h.1)

/-- C9: the producer keeps the most specific declared kind for each
identifier, ordered table > schema > catalog by typePriority: the kind
recorded in the typedUuids map occurs among the identifier's parsed
occurrences and its priority dominates that of every occurrence. -/
theorem findUnityElements_type_max (occs : List (String × String)) (u : String)
    (hu : u ∈ occs.map Prod.fst) :
    ∃ t, lookupA (buildTypedUuids occs) u = some t ∧ (u, t) ∈ occs ∧
      ∀ p ∈ occs, p.1 = u → typePriority p.2 ≤ typePriority t := by
  revert hu
  induction occs using List.reverseRecOn with
  | nil => intro hu; simp at hu
  | append_singleton occs p ih =>
    intro hu
    rw [buildTypedUuids_append]
    by_cases hup : u = p.1
    · cases hB : lookupA (buildTypedUuids occs) u with
      | none =>
        have hnot : u ∉ occs.map Prod.fst := by
          intro hmem
          obtain ⟨t0, ht0, _⟩ := ih hmem
          rw [hB] at ht0
          exact Option.noConfusion ht0
        refine ⟨p.2, ?_, ?_, ?_⟩
        · simp only [updateTypedUuid, hup ▸ hB]
          rw [lookupA_insertA, if_pos hup.symm]
        · refine List.mem_append.mpr (Or.inr ?_)
          rw [hup, Prod.mk.eta]
          exact List.mem_singleton_self p
        · intro q hq hq1
          rcases List.mem_append.mp hq with hq' | hq'
          · exact absurd (List.mem_map.mpr ⟨q, hq', hq1⟩) hnot
          · have hqp : q = p := by simpa using hq'
            subst hqp
            exact le_refl _
      | some existing =>
        have humem : u ∈ occs.map Prod.fst := by
          by_contra hnm
          rw [buildTypedUuids_not_mem occs u hnm] at hB
          exact Option.noConfusion hB
        obtain ⟨t0, ht0, htmem, htmax⟩ := ih humem
        have ht0e : existing = t0 := by
          rw [hB] at ht0
          exact Option.some.inj ht0
        subst ht0e
        by_cases hc : existing = "" ∨ typePriority p.2 > typePriority existing
        · refine ⟨p.2, ?_, ?_, ?_⟩
          · simp only [updateTypedUuid, hup ▸ hB]
            rw [if_pos hc, lookupA_insertA, if_pos hup.symm]
          · refine List.mem_append.mpr (Or.inr ?_)
            rw [hup, Prod.mk.eta]
            exact List.mem_singleton_self p
          · intro q hq hq1
            rcases List.mem_append.mp hq with hq' | hq'
            · have hle := htmax q hq' hq1
              rcases hc with hc | hc
              · rw [hc, show typePriority "" = 0 from rfl] at hle
                exact le_trans hle (Nat.zero_le _)
              · exact le_trans hle (le_of_lt hc)
            · have hqp : q = p := by simpa using hq'
              subst hqp
              exact le_refl _
        · push_neg at hc
          refine ⟨existing, ?_, List.mem_append.mpr (Or.inl htmem), ?_⟩
          · simp only [updateTypedUuid, hup ▸ hB]
            rw [if_neg ?_]
            · exact hB
            · push_neg
              exact hc
          · intro q hq hq1
            rcases List.mem_append.mp hq with hq' | hq'
            · exact htmax q hq' hq1
            · have hqp : q = p := by simpa using hq'
              subst hqp
              exact hc.2
    · have hum : u ∈ occs.map Prod.fst := by
        rcases List.mem_map.mp hu with ⟨q, hq, hq1⟩
        rcases List.mem_append.mp hq with hq' | hq'
        · exact List.mem_map.mpr ⟨q, hq', hq1⟩
        · have hqp : q = p := by simpa using hq'
          subst hqp
          exact absurd hq1 (fun hh => hup hh.symm)
      obtain ⟨t0, ht0, htmem, htmax⟩ := ih hum
      refine ⟨t0, ?_, List.mem_append.mpr (Or.inl htmem), ?_⟩
      · rw [lookupA_updateTypedUuid_ne _ _ _ _ hup]
        exact ht0
      · intro q hq hq1
        rcases List.mem_append.mp hq with hq' | hq'
        · exact htmax q hq' hq1
        · have hqp : q = p := by simpa using hq'
          subst hqp
          exact absurd hq1 (fun hh => hup hh.symm)

def occsEx : List (String × String) :=
  [(uuidA, "catalog"), (uuidA, "table"), (uuidA, "schema")]

theorem findUnityElements_type_max_witness :
    ∃ t, lookupA (buildTypedUuids occsEx) uuidA = some t ∧
      (uuidA, t) ∈ occsEx ∧
      ∀ p ∈ occsEx, p.1 = uuidA → typePriority p.2 ≤ typePriority t :=
  findUnityElements_type_max occsEx uuidA (by decide)

end S3Lens
